import Mathlib

/-
Verification of the submission grading pipeline of the deca-test-mark
backend.  The definitions below are a shallow embedding of
`BACKEND-CODE/src/services/openaiService.ts` (quality-analysis adapter),
the submissions router (`router.post('/grade')`, the read endpoints, the
admin `PATCH`/`DELETE` endpoints) and, where the repository's grading
service itself is not part of the sources, models taken from the written
specification (each such definition is marked `Modelled from the spec:`).
-/

namespace DecaTestMark

/-! ## JSON values (model of the JavaScript values produced by `JSON.parse`) -/

inductive Json where
  | null : Json
  | bool : Bool → Json
  | num : Int → Json
  | str : String → Json
  | arr : List Json → Json
  | obj : List (String × Json) → Json

/-- Property access `analysis.k` on a parsed value: a field of an object,
`undefined` (here `none`) otherwise.  (Property access on `null` throws in
JavaScript; the callers below never reach that case in the facts proved.) -/
def getField (j : Json) (k : String) : Option Json :=
  match j with
  | .obj fields => fields.lookup k
  | _ => none

/-- JavaScript truthiness of a JSON value (`false`, `0`, `""`, `null` are
falsy; objects and arrays are truthy). -/
def jsTruthy : Json → Bool
  | .null => false
  | .bool b => b
  | .num n => n != 0
  | .str s => s != ""
  | .arr _ => true
  | .obj _ => true

/-- JavaScript `v || d` on a possibly-undefined JavaScript value. -/
def jsOrElse (v : Option Json) (d : Json) : Json :=
  match v with
  | some x => if jsTruthy x then x else d
  | none => d

/-- JavaScript `typeof v === 'number'` on a possibly-undefined value. -/
def isNumO : Option Json → Bool
  | some (.num _) => true
  | _ => false

/-- Whether a JSON value is a number. -/
def isNumberJ : Json → Bool
  | .num _ => true
  | _ => false

/-! ## A model of `JSON.parse`

Recursive-descent parser over a character list, with explicit fuel.
Simplifications relative to the JavaScript builtin: numbers are integers
(no fraction/exponent forms) and `\u` escapes are not modelled; none of
the concrete payloads below use those forms. -/

def isWsChar (c : Char) : Bool := c = ' ' || c = '\n' || c = '\t' || c = '\r'

def skipWs (l : List Char) : List Char := l.dropWhile isWsChar

def isDigitChar (c : Char) : Bool := '0' ≤ c && c ≤ '9'

def digitsToNat (ds : List Char) : Nat :=
  ds.foldl (fun acc c => acc * 10 + (c.toNat - 48)) 0

/-- Body of a JSON string literal, after the opening quote: returns the
decoded characters and the input remaining after the closing quote. -/
def parseStrBody : List Char → Option (List Char × List Char)
  | [] => none
  | '"' :: rest => some ([], rest)
  | '\\' :: e :: rest =>
    (match e with
     | '"' => some '"'
     | '\\' => some '\\'
     | '/' => some '/'
     | 'n' => some '\n'
     | 't' => some '\t'
     | 'r' => some '\r'
     | 'b' => some (Char.ofNat 8)
     | 'f' => some (Char.ofNat 12)
     | _ => none).bind fun c =>
       (parseStrBody rest).map fun (sr : List Char × List Char) => (c :: sr.1, sr.2)
  | c :: rest => (parseStrBody rest).map fun (sr : List Char × List Char) => (c :: sr.1, sr.2)

/-- An integer JSON number: optional minus sign, then digits. -/
def parseNum (l : List Char) : Option (Int × List Char) :=
  match l with
  | '-' :: rest =>
    if (rest.takeWhile isDigitChar).isEmpty then none
    else some (-(digitsToNat (rest.takeWhile isDigitChar) : Int), rest.dropWhile isDigitChar)
  | _ =>
    if (l.takeWhile isDigitChar).isEmpty then none
    else some ((digitsToNat (l.takeWhile isDigitChar) : Int), l.dropWhile isDigitChar)

mutual

def parseVal : Nat → List Char → Option (Json × List Char)
  | 0, _ => none
  | fuel + 1, l =>
    match skipWs l with
    | 'n' :: 'u' :: 'l' :: 'l' :: rest => some (.null, rest)
    | 't' :: 'r' :: 'u' :: 'e' :: rest => some (.bool true, rest)
    | 'f' :: 'a' :: 'l' :: 's' :: 'e' :: rest => some (.bool false, rest)
    | '"' :: rest => (parseStrBody rest).map fun sr => (.str (String.mk sr.1), sr.2)
    | '[' :: rest =>
      (match skipWs rest with
       | ']' :: r2 => some (.arr [], r2)
       | _ => (parseElems fuel rest).map fun er => (.arr er.1, er.2))
    | '\x7b' :: rest =>
      (match skipWs rest with
       | '\x7d' :: r2 => some (.obj [], r2)
       | _ => (parseMembers fuel rest).map fun mr => (.obj mr.1, mr.2))
    | l2 => (parseNum l2).map fun nr => (.num nr.1, nr.2)

def parseElems : Nat → List Char → Option (List Json × List Char)
  | 0, _ => none
  | fuel + 1, l =>
    (parseVal fuel l).bind fun vr =>
      match skipWs vr.2 with
      | ',' :: r2 => (parseElems fuel r2).map fun er => (vr.1 :: er.1, er.2)
      | ']' :: r2 => some ([vr.1], r2)
      | _ => none

def parseMembers : Nat → List Char → Option (List (String × Json) × List Char)
  | 0, _ => none
  | fuel + 1, l =>
    match skipWs l with
    | '"' :: rest =>
      (parseStrBody rest).bind fun kr =>
        match skipWs kr.2 with
        | ':' :: r2 =>
          (parseVal fuel r2).bind fun vr =>
            match skipWs vr.2 with
            | ',' :: r4 => (parseMembers fuel r4).map fun mr => ((String.mk kr.1, vr.1) :: mr.1, mr.2)
            | '\x7d' :: r4 => some ([(String.mk kr.1, vr.1)], r4)
            | _ => none
        | _ => none
    | _ => none

end

/-- Model of `JSON.parse` on a whole input: a single value with only
whitespace around it, otherwise failure (a thrown `SyntaxError`). -/
def jsonParse (l : List Char) : Option Json :=
  match parseVal (2 * l.length + 2) l with
  | some (v, rest) => if (skipWs rest).isEmpty then some v else none
  | none => none

/-! ## `safeJsonParse` (openaiService.ts lines 569-580)

The fallback regex `/\x7b[\s\S]*\x7d/` matches greedily: the match runs
from the first opening brace to the last closing brace of the whole text
(provided the latter comes after the former); it is not balance-checked. -/

def afterFirstBrace (l : List Char) : List Char := l.dropWhile (fun c => c ≠ '\x7b')

def upToLastClose (l : List Char) : List Char :=
  (l.reverse.dropWhile (fun c => c ≠ '\x7d')).reverse

/-- The span matched by `content.match(/\x7b[\s\S]*\x7d/)`, when any. -/
def braceSpan (l : List Char) : Option (List Char) :=
  if (afterFirstBrace l).isEmpty then none
  else if (upToLastClose (afterFirstBrace l)).isEmpty then none
  else some (upToLastClose (afterFirstBrace l))

/-- Function `safeJsonParse`: direct parse, then parse of the greedy brace span,
then the empty object. -/
def safeJsonParse (l : List Char) : Json :=
  match jsonParse l with
  | some v => v
  | none =>
    match braceSpan l with
    | some m =>
      match jsonParse m with
      | some v => v
      | none => Json.obj []
    | none => Json.obj []

/-! ## File sanitisation and truncation (openaiService.ts lines 82-102) -/

/-- The character class of `code.replace(/[\x00-\x09\x0B-\x1F\x7F]/g, '')`:
every C0 control character except the newline `\x0A`, plus DEL. -/
def strippedCtrl (c : Char) : Bool := (c.toNat ≤ 31 && c ≠ '\n') || c.toNat == 127

/-- Function `sanitizeCode` deletes exactly the characters of `strippedCtrl`. -/
def sanitizeCode (l : List Char) : List Char := l.filter (fun c => !strippedCtrl c)

/-- The marker `'\n// ...truncated...'` appended past the per-file cap. -/
def truncMarker : List Char := '\n' :: "// ...truncated...".toList

/-- Standard notion of an ASCII control character (C0 controls and DEL). -/
def isCtrlChar (c : Char) : Bool := c.toNat < 32 || c.toNat == 127

/-- The per-file body placed into the prompt: sanitised content, cut at
10000 characters with the truncation marker when longer. -/
def processFileContent (l : List Char) : List Char :=
  if 10000 < (sanitizeCode l).length then (sanitizeCode l).take 10000 ++ truncMarker
  else sanitizeCode l

/-- Function `readRepoFiles`, over the already-read files (relative path, raw
content); the filesystem glob matching itself is outside the embedding. -/
def readRepoFiles (files : List (List Char × List Char)) : List Char :=
  files.foldl
    (fun acc rc => acc ++ ("// ".toList ++ rc.1 ++ ['\n'] ++ processFileContent rc.2 ++ ['\n', '\n']))
    []

/-! ## `analyzeCode` (openaiService.ts lines 23-79)

The external call `openai.chat.completions.create` is modelled by an
oracle `svc : Nat → Except String String` giving the outcome of the n-th
call made (an exception message, or the returned content).  The body is
straight-line: it consults call 0 and no other. -/

structure BreakdownEntry where
  category : String
  score : Json
  maxScore : Nat
  feedback : String

inductive AnalysisOut where
  | web (score : Json) (report : Json)
  | cLang (codeSmellScore : Json) (codeQualityScore : Json) (report : Json)
      (breakdown : List BreakdownEntry)

/-- The two let-bindings plus the `typeof ... !== 'number'` guard of the
`projectType === 'c'` branch: both scores must be numbers, otherwise both
default to 0. -/
def cScores (a b : Option Json) : Json × Json :=
  match a, b with
  | some (.num x), some (.num y) => (Json.num x, Json.num y)
  | _, _ => (Json.num 0, Json.num 0)

/-- Function `analyzeCode`: one service call; lenient parse of the content; scores
assembled per project type; on any exception a degraded zero-score result
whose report explains the failure. -/
def analyzeCode (svc : Nat → Except String String) (projectType : Option String) : AnalysisOut :=
  match svc 0 with
  | .error e =>
    if projectType = some "c" then
      .cLang (Json.num 0) (Json.num 0) (Json.str ("AI analysis failed: " ++ e))
        [⟨"Code Quality", Json.num 0, 100, "LLM code quality score"⟩,
         ⟨"Code Smell", Json.num 0, 100, "LLM code smell score"⟩]
    else
      .web (Json.num 0) (Json.str ("AI analysis failed: " ++ e))
  | .ok content =>
    if projectType = some "c" then
      .cLang
        (cScores (getField (safeJsonParse content.toList) "codeSmellScore")
           (getField (safeJsonParse content.toList) "codeQualityScore")).1
        (cScores (getField (safeJsonParse content.toList) "codeSmellScore")
           (getField (safeJsonParse content.toList) "codeQualityScore")).2
        (jsOrElse (getField (safeJsonParse content.toList) "report") (Json.str "No analysis provided"))
        [⟨"Code Quality",
           (cScores (getField (safeJsonParse content.toList) "codeSmellScore")
              (getField (safeJsonParse content.toList) "codeQualityScore")).2, 100,
           "LLM code quality score"⟩,
         ⟨"Code Smell",
           (cScores (getField (safeJsonParse content.toList) "codeSmellScore")
              (getField (safeJsonParse content.toList) "codeQualityScore")).1, 100,
           "LLM code smell score"⟩]
    else
      .web (jsOrElse (getField (safeJsonParse content.toList) "score") (Json.num 0))
        (jsOrElse (getField (safeJsonParse content.toList) "report") (Json.str "No analysis provided"))

/-- The quality score(s) carried by an analysis result: the single quality
score for web-stack projects, code-smell then code-quality for `'c'`. -/
def qualityScores : AnalysisOut → List Json
  | .web s _ => [s]
  | .cLang sm cq _ _ => [sm, cq]

/-- The report carried by an analysis result. -/
def reportOf : AnalysisOut → Json
  | .web _ r => r
  | .cLang _ _ r _ => r

/-! ## The Submission record and the submissions router (part_006)

The mongoose schema file itself is not among the sources; the fields below
are those the router reads and writes, typed per the spec's data model
(§3): `status` ranges over the seven documented states and `grade` over
`pending`/`pass`/`fail`. -/

inductive Status where
  | uploading | installing | testing | reviewing | reporting | completed | failed
deriving DecidableEq

inductive Grade where
  | pending | pass | fail
deriving DecidableEq

structure Scores where
  total : Int
  testScore : Int
  qualityScore : Int
deriving DecidableEq

structure Submission where
  id : Nat
  githubUrl : String
  userId : Nat
  projectType : Option String
  status : Status
  grade : Grade
  scores : Option Scores
  report : Option String
  error : Option String
deriving DecidableEq

/-- Modelled from the spec: the Score Aggregator (§4.5) inside
`gradingService` is not under the sources; per §4.5 the grade it assigns
is `pass` or `fail`, never `pending`. -/
inductive FinalGrade where
  | pass | fail
deriving DecidableEq

def FinalGrade.toGrade : FinalGrade → Grade
  | .pass => Grade.pass
  | .fail => Grade.fail

/-- Modelled from the spec: the value resolved by
`gradingService.gradeSubmission`, of which the route's success
continuation reads `grade`, `scores` and `report`. -/
structure GradeResult where
  grade : FinalGrade
  scores : Scores
  report : String

/-- The record built and saved by `router.post('/grade')`:
`status: 'uploading'`, `grade: 'pending'`, no scores/report/error yet. -/
def mkIntakeSubmission (id userId : Nat) (githubUrl : String) (projectType : Option String) :
    Submission :=
  { id := id, githubUrl := githubUrl, userId := userId, projectType := projectType,
    status := Status.uploading, grade := Grade.pending,
    scores := none, report := none, error := none }

/-- The `.then` continuation of the grade route: `status = 'completed'`,
grade/scores/report copied from the pipeline result. -/
def applySuccess (sub : Submission) (r : GradeResult) : Submission :=
  { sub with status := Status.completed, grade := r.grade.toGrade,
             scores := some r.scores, report := some r.report }

/-- The `.catch` continuation of the grade route: `status = 'failed'`,
`error = error.message`; nothing else is touched. -/
def applyFailure (sub : Submission) (msg : String) : Submission :=
  { sub with status := Status.failed, error := some msg }

/-- The fields an admin `PATCH /:id` request may carry (absent fields and
empty strings are falsy in the handler's `if (status) ...` guards, hence
`none` here). -/
structure PatchBody where
  status : Option Status
  grade : Option Grade
  error : Option String

/-- The admin `PATCH /:id` handler's mutation: each supplied field is
assigned verbatim, with no transition or consistency validation. -/
def patchSubmission (sub : Submission) (b : PatchBody) : Submission :=
  { sub with
    status := b.status.getD sub.status,
    grade := b.grade.getD sub.grade,
    error := match b.error with | some e => some e | none => sub.error }

/-- What `router.post('/grade')` does before returning: save the fresh
record and answer `202` with its id.  The pipeline has not run. -/
def intakeRun (id userId : Nat) (url : String) (pt : Option String) :
    Submission × Nat × Nat :=
  (mkIntakeSubmission id userId url pt, 202, id)

/-- The record after the detached pipeline task settles: the success or
the failure continuation applied to the stored record. -/
def finalSubmission (sub : Submission) (outcome : Except String GradeResult) : Submission :=
  match outcome with
  | .ok r => applySuccess sub r
  | .error m => applyFailure sub m

/-- A whole run of the grade route: the settled record together with the
HTTP answer, which was already sent at intake time. -/
def completeRun (id userId : Nat) (url : String) (pt : Option String)
    (outcome : Except String GradeResult) : Submission × Nat × Nat :=
  (finalSubmission (mkIntakeSubmission id userId url pt) outcome, 202, id)

/-! ## The documented state machine (spec §4.2/§8) -/

/-- The unique forward successor of each state, per §4.2. -/
def nextPhase : Status → Option Status
  | .uploading => some .installing
  | .installing => some .testing
  | .testing => some .reviewing
  | .reviewing => some .reporting
  | .reporting => some .completed
  | .completed => none
  | .failed => none

/-- The documented edges: the forward chain, plus a direct edge to
`failed` from every state but `completed` (re-entry into `failed` being
idempotent). -/
def allowedEdge (a b : Status) : Bool :=
  nextPhase a == some b || (b == Status.failed && !(a == Status.completed))

/-- The forward chain of §4.2. -/
def phaseChain : List Status :=
  [.uploading, .installing, .testing, .reviewing, .reporting, .completed]

/-- Modelled from the spec: the status history of a run whose phase
`k` fails — the Phase Executor inside `gradingService` is not under the
sources; §4.2 has it walk the first `k+1` states and then the failure
continuation writes `failed`. -/
def failTrace (k : Fin 5) : List Status := phaseChain.take (k.1 + 1) ++ [Status.failed]

/-- The spec's grade/status invariant (§3, §8): `pending` away from
`completed`; `pass` or `fail` at `completed`. -/
def gradeInvB (s : Submission) : Bool :=
  match s.status, s.grade with
  | .completed, .pending => false
  | .completed, _ => true
  | _, .pending => true
  | _, _ => false

/-! ## Authentication middleware and the open read endpoints (part_006) -/

structure HttpReq where
  authorization : Option String

/-- Middleware `getUserFromToken`: rejects with 401 when the `Authorization` header
is missing, is not a bearer token, fails verification, or names an
unknown user; otherwise yields the user (id and role).  `verify` stands
for `jwt.verify` with the server secret. -/
def getUserFromToken (verify : String → Option Nat) (users : List (Nat × String))
    (req : HttpReq) : Except Nat (Nat × String) :=
  match req.authorization with
  | none => .error 401
  | some auth =>
    if auth.startsWith "Bearer " then
      match verify (auth.drop 7) with
      | some userId =>
        match users.lookup userId with
        | some role => .ok (userId, role)
        | none => .error 401
      | none => .error 401
    else .error 401

/-- Route `GET /api/submissions`: no middleware; filters by the optional
`userId`/`status` query fields, then `skip`/`limit`.  (The `createdAt`
sort is omitted: the store is kept in order.)  The request is accepted
whatever its `Authorization` header says. -/
def listSubmissions (db : List Submission) (fUser : Option Nat) (fStatus : Option Status)
    (skip lim : Nat) (_req : HttpReq) : Nat × List Submission :=
  (200,
    ((db.filter fun s =>
        (match fUser with | some u => decide (s.userId = u) | none => true) &&
        (match fStatus with | some st => decide (s.status = st) | none => true)).drop skip).take
      lim)

/-- Route `GET /api/submissions/:id`: no middleware; 404 when absent, otherwise
the full record of any user's submission. -/
def getSubmissionById (db : List Submission) (i : Nat) (_req : HttpReq) :
    Nat × Option Submission :=
  match db.find? (fun s => decide (s.id = i)) with
  | some s => (200, some s)
  | none => (404, none)

/-- Route `GET /api/submissions/:id/report.md`: no middleware; 404 when the
record or its report is absent (an empty report string is falsy in
`!submission.report`), otherwise the stored markdown. -/
def getReportRoute (db : List Submission) (i : Nat) (_req : HttpReq) : Nat × Option String :=
  match db.find? (fun s => decide (s.id = i)) with
  | some s =>
    match s.report with
    | some r => if r = "" then (404, none) else (200, some r)
    | none => (404, none)
  | none => (404, none)

/-- Route `POST /api/submissions/grade` behind `getUserFromToken`: 401 without a
valid bearer token; otherwise the intake record is stored and `202` is
answered with the fresh id. -/
def postGradeRoute (verify : String → Option Nat) (users : List (Nat × String))
    (db : List Submission) (freshId : Nat) (url : String) (pt : Option String)
    (req : HttpReq) : Nat × Option Nat × List Submission :=
  match getUserFromToken verify users req with
  | .error c => (c, none, db)
  | .ok (uid, _) => (202, some freshId, db ++ [mkIntakeSubmission freshId uid url pt])

/-- Route `PATCH /api/submissions/:id` behind `getUserFromToken` and
`requireAdmin`: 401 without a valid token, 403 for non-admins, 404 when
absent, otherwise the unvalidated field update. -/
def patchRoute (verify : String → Option Nat) (users : List (Nat × String))
    (db : List Submission) (i : Nat) (b : PatchBody) (req : HttpReq) :
    Nat × List Submission :=
  match getUserFromToken verify users req with
  | .error c => (c, db)
  | .ok (_, role) =>
    if role = "admin" then
      match db.find? (fun s => decide (s.id = i)) with
      | some _ => (200, db.map fun s => if s.id = i then patchSubmission s b else s)
      | none => (404, db)
    else (403, db)

/-- Route `DELETE /api/submissions/:id` behind `getUserFromToken` and
`requireAdmin`. -/
def deleteRoute (verify : String → Option Nat) (users : List (Nat × String))
    (db : List Submission) (i : Nat) (req : HttpReq) : Nat × List Submission :=
  match getUserFromToken verify users req with
  | .error c => (c, db)
  | .ok (_, role) =>
    if role = "admin" then
      match db.find? (fun s => decide (s.id = i)) with
      | some _ => (200, db.filter fun s => !decide (s.id = i))
      | none => (404, db)
    else (403, db)

/-! ## The Admission Scheduler -/

/-- Modelled from the spec: the Admission Scheduler (§4.1, §5) lives in
`gradingService`, which is not under the sources — only its caller, the
grade route, is.  Per §4.1/§5 it is a counting admission gate over
cooperatively scheduled tasks: a set of running jobs bounded by `N` and a
FIFO queue of admitted-but-waiting jobs. -/
structure SchedState where
  running : List Nat
  queue : List Nat
deriving DecidableEq

inductive SchedEv where
  | submit (j : Nat)
  | finish (j : Nat)
deriving DecidableEq

/-- Modelled from the spec: one scheduler transition.  A submitted job
starts at once when a slot is free and is appended to the queue otherwise
(never rejected); a finishing job frees its slot and the queue's head, if
any, starts in its place. -/
def schedStep (N : Nat) (s : SchedState) : SchedEv → SchedState
  | .submit j =>
    if s.running.length < N then ⟨s.running ++ [j], s.queue⟩
    else ⟨s.running, s.queue ++ [j]⟩
  | .finish j =>
    if j ∈ s.running then
      match s.queue with
      | [] => ⟨s.running.erase j, []⟩
      | q :: qs => ⟨s.running.erase j ++ [q], qs⟩
    else s

/-- The jobs a step admits into the waiting queue. -/
def enqLog (N : Nat) (s : SchedState) : SchedEv → List Nat
  | .submit j => if s.running.length < N then [] else [j]
  | .finish _ => []

/-- The jobs a step starts out of the waiting queue. -/
def deqLog (_N : Nat) (s : SchedState) : SchedEv → List Nat
  | .submit _ => []
  | .finish j =>
    if j ∈ s.running then
      match s.queue with
      | [] => []
      | q :: _ => [q]
    else []

/-- Folding a scheduler history from a given state, accumulating the
enqueue and dequeue logs. -/
def schedExec (N : Nat) (evs : List SchedEv) (init : SchedState × List Nat × List Nat) :
    SchedState × List Nat × List Nat :=
  evs.foldl
    (fun acc e => (schedStep N acc.1 e, acc.2.1 ++ enqLog N acc.1 e, acc.2.2 ++ deqLog N acc.1 e))
    init

/-- A scheduler history from the idle scheduler. -/
def schedRun (N : Nat) (evs : List SchedEv) : SchedState × List Nat × List Nat :=
  schedExec N evs (⟨[], []⟩, [], [])

/-! ## Theorems -/

lemma schedExec_inv (N : Nat) (evs : List SchedEv) :
    ∀ s enq deq, s.running.length ≤ N → enq = deq ++ s.queue →
      (schedExec N evs (s, enq, deq)).1.running.length ≤ N ∧
      (schedExec N evs (s, enq, deq)).2.1 =
        (schedExec N evs (s, enq, deq)).2.2 ++ (schedExec N evs (s, enq, deq)).1.queue := by
  induction evs with
  | nil =>
    intro s enq deq h1 h2
    exact ⟨h1, by simpa [schedExec] using h2⟩
  | cons e evs ih =>
    intro s enq deq h1 h2
    have hstep : schedExec N (e :: evs) (s, enq, deq) =
        schedExec N evs (schedStep N s e, enq ++ enqLog N s e, deq ++ deqLog N s e) := rfl
    rw [hstep]
    cases e with
    | submit j =>
      by_cases hlt : s.running.length < N
      · refine ih _ _ _ ?_ ?_
        · simp only [schedStep, if_pos hlt, List.length_append, List.length_cons,
            List.length_nil]
          omega
        · simp [schedStep, enqLog, deqLog, hlt, h2]
      · refine ih _ _ _ ?_ ?_
        · simpa [schedStep, hlt] using h1
        · simp [schedStep, enqLog, deqLog, hlt, h2, List.append_assoc]
    | finish j =>
      by_cases hmem : j ∈ s.running
      · cases hq : s.queue with
        | nil =>
          refine ih _ _ _ ?_ ?_
          · simpa [schedStep, hmem, hq] using
              le_trans (List.Sublist.length_le (List.erase_sublist j s.running)) h1
          · simpa [schedStep, enqLog, deqLog, hmem, hq] using (by simpa [hq] using h2)
        | cons q qs =>
          refine ih _ _ _ ?_ ?_
          · have hlen := List.length_erase_of_mem hmem
            have hpos : 0 < s.running.length := List.length_pos_of_mem hmem
            simp only [schedStep, hmem, if_true, hq, List.length_append, List.length_cons,
              List.length_nil, hlen]
            omega
          · simp only [schedStep, enqLog, deqLog, hmem, if_true, hq, List.append_nil]
            rw [h2, hq]
            simp
      · refine ih _ _ _ ?_ ?_
        · simpa [schedStep, hmem] using h1
        · simpa [schedStep, enqLog, deqLog, hmem] using h2

/-- Claim C1: at any instant the number of concurrently running pipeline
tasks never exceeds the admission limit `N`; a submission finding a free
slot starts at once, one finding the pool full is appended to the queue
(never rejected); and the enqueue log always equals the dequeue log
followed by the still-waiting queue, so jobs leave the queue in exactly
their arrival order (FIFO). -/
theorem admission_bound_and_fifo (N : Nat) (evs : List SchedEv) :
    (schedRun N evs).1.running.length ≤ N ∧
    (schedRun N evs).2.1 = (schedRun N evs).2.2 ++ (schedRun N evs).1.queue ∧
    (∀ s j, N ≤ s.running.length →
      schedStep N s (SchedEv.submit j) = ⟨s.running, s.queue ++ [j]⟩) ∧
    (∀ s j, s.running.length < N →
      schedStep N s (SchedEv.submit j) = ⟨s.running ++ [j], s.queue⟩) := by
  refine ⟨(schedExec_inv N evs ⟨[], []⟩ [] [] (by simp) rfl).1,
    (schedExec_inv N evs ⟨[], []⟩ [] [] (by simp) rfl).2, ?_, ?_⟩
  · intro s j h
    simp [schedStep, Nat.not_lt.mpr h]
  · intro s j h
    simp [schedStep, h]

/-- Witness for C1: with limit 2, after three submissions and one
completion, at most 2 jobs run; and a submission into a full pool of 2 is
queued, not started or dropped. -/
theorem admission_bound_and_fifo_witness :
    (schedRun 2 [SchedEv.submit 1, SchedEv.submit 2, SchedEv.submit 3,
      SchedEv.finish 1]).1.running.length ≤ 2 ∧
    schedStep 2 ⟨[5, 6], []⟩ (SchedEv.submit 7) = ⟨[5, 6], [7]⟩ :=
  ⟨(admission_bound_and_fifo 2 [SchedEv.submit 1, SchedEv.submit 2, SchedEv.submit 3,
      SchedEv.finish 1]).1,
   (admission_bound_and_fifo 2 []).2.2.1 ⟨[5, 6], []⟩ 7 (by decide)⟩

/-- Whether every pair of adjacent statuses in a history is a documented
edge. -/
def adjacentOk : List Status → Bool
  | [] => true
  | [_] => true
  | a :: b :: t => allowedEdge a b && adjacentOk (b :: t)

/-- Claim C2 (amended): intake starts at `uploading`; the modelled phase
walk with the route's success continuation follows exactly the documented
forward chain, and a failure at any of the five phases takes the direct
edge to `failed`; but the admin `PATCH` handler assigns any requested
status verbatim, so it is not bounded by the documented edges. -/
theorem status_machine :
    adjacentOk phaseChain = true ∧
    (∀ k : Fin 5, adjacentOk (failTrace k) = true) ∧
    (∀ sub t, (patchSubmission sub ⟨some t, none, none⟩).status = t) :=
  ⟨by decide, by decide, fun _ _ => rfl⟩

/-- Counterexample for C2: the admin endpoint moves a `completed`
submission straight back to `uploading`, an edge the documented state
machine forbids. -/
theorem patch_allows_backward_edge :
    (applySuccess (mkIntakeSubmission 1 7 "https://github.com/u/r" none)
        ⟨FinalGrade.pass, ⟨90, 100, 80⟩, "report"⟩).status = Status.completed ∧
    (patchSubmission
        (applySuccess (mkIntakeSubmission 1 7 "https://github.com/u/r" none)
          ⟨FinalGrade.pass, ⟨90, 100, 80⟩, "report"⟩)
        ⟨some Status.uploading, none, none⟩).status = Status.uploading ∧
    allowedEdge Status.completed Status.uploading = false :=
  ⟨rfl, rfl, rfl⟩

/-- Claim C3 (amended): intake establishes the grade/status invariant,
the success continuation re-establishes it (the aggregator's grade is
`pass` or `fail`), and the failure continuation preserves it from any
non-`completed` state; the admin `PATCH` endpoint is not included, as it
updates `status` and `grade` independently with no validation. -/
theorem grade_invariant_pipeline :
    (∀ id uid url pt, gradeInvB (mkIntakeSubmission id uid url pt) = true) ∧
    (∀ sub r, gradeInvB (applySuccess sub r) = true) ∧
    (∀ sub msg, gradeInvB sub = true → sub.status ≠ Status.completed →
      gradeInvB (applyFailure sub msg) = true) := by
  refine ⟨fun _ _ _ _ => rfl, fun sub r => ?_, fun sub msg h1 h2 => ?_⟩
  · cases hg : r.grade <;> simp [applySuccess, gradeInvB, FinalGrade.toGrade, hg]
  · have hpend : sub.grade = Grade.pending := by
      cases hs : sub.status <;> cases hg : sub.grade <;>
        simp_all [gradeInvB]
    simp [applyFailure, gradeInvB, hpend]

/-- Witness for C3: the failure continuation applied to a fresh intake
record keeps the invariant. -/
theorem grade_invariant_pipeline_witness :
    gradeInvB (applyFailure (mkIntakeSubmission 1 2 "https://github.com/u/r" none) "boom") =
      true :=
  grade_invariant_pipeline.2.2 (mkIntakeSubmission 1 2 "https://github.com/u/r" none) "boom"
    rfl (by decide)

/-- Counterexample for C3: the admin endpoint sets `grade = pass` on a
submission still at `uploading`, breaking the invariant the claim says
every mutating operation preserves. -/
theorem patch_breaks_grade_invariant :
    gradeInvB (mkIntakeSubmission 1 2 "https://github.com/u/r" none) = true ∧
    gradeInvB (patchSubmission (mkIntakeSubmission 1 2 "https://github.com/u/r" none)
        ⟨none, some Grade.pass, none⟩) = false :=
  ⟨rfl, rfl⟩

/-- Claim C5: intake stores a fresh record at `uploading`/`pending` and
answers 202 with the record's id, and that answer is the same whatever
the detached pipeline later produces — the response does not wait on the
pipeline. -/
theorem intake_immediate_ack (id uid : Nat) (url : String) (pt : Option String) :
    (intakeRun id uid url pt).1.status = Status.uploading ∧
    (intakeRun id uid url pt).1.grade = Grade.pending ∧
    (intakeRun id uid url pt).2 = (202, id) ∧
    ∀ outcome, (completeRun id uid url pt outcome).2 = (intakeRun id uid url pt).2 :=
  ⟨rfl, rfl, rfl, fun _ => rfl⟩

/-- Claim C6: when the detached pipeline task rejects, the catch boundary
writes `status = failed` and `error = message` into the record, leaves
the grade pending, and the HTTP answer already sent (202 with the id) is
untouched — the error never reaches the original caller. -/
theorem pipeline_failure_boundary (id uid : Nat) (url : String) (pt : Option String)
    (msg : String) :
    (completeRun id uid url pt (Except.error msg)).1.status = Status.failed ∧
    (completeRun id uid url pt (Except.error msg)).1.error = some msg ∧
    (completeRun id uid url pt (Except.error msg)).1.grade = Grade.pending ∧
    (completeRun id uid url pt (Except.error msg)).2 = (intakeRun id uid url pt).2 :=
  ⟨rfl, rfl, rfl, rfl⟩

/-- Claim C4: if the single service call fails, `analyzeCode` still
returns a value (no exception escapes): every quality score in the result
is zero and the report is the explanatory failure note; moreover the
result depends only on the outcome of call 0, so exactly one service call
is consulted — there is no retry. -/
theorem analysis_error_degraded :
    (∀ svc pt e, svc 0 = Except.error e →
       (∀ q ∈ qualityScores (analyzeCode svc pt), q = Json.num 0) ∧
       reportOf (analyzeCode svc pt) = Json.str ("AI analysis failed: " ++ e)) ∧
    (∀ svc1 svc2 pt, svc1 0 = svc2 0 → analyzeCode svc1 pt = analyzeCode svc2 pt) := by
  constructor
  · intro svc pt e h
    by_cases hc : pt = some "c" <;> simp [analyzeCode, h, hc, qualityScores, reportOf]
  · intro s1 s2 pt h
    simp only [analyzeCode, h]

/-- Witness for C4: a service that always throws `boom` yields the
failure note for a `'c'` project, and only call 0 matters: a service that
would answer differently on a second call produces the same result. -/
theorem analysis_error_degraded_witness :
    reportOf (analyzeCode (fun _ => Except.error "boom") (some "c")) =
      Json.str ("AI analysis failed: " ++ "boom") ∧
    analyzeCode (fun _ => Except.error "retry") (some "express") =
      analyzeCode (fun n => if n = 0 then Except.error "retry" else Except.ok "42")
        (some "express") :=
  ⟨(analysis_error_degraded.1 (fun _ => Except.error "boom") (some "c") "boom" rfl).2,
   analysis_error_degraded.2 (fun _ => Except.error "retry")
     (fun n => if n = 0 then Except.error "retry" else Except.ok "42") (some "express") rfl⟩

lemma cScores_default (a b : Option Json) (h : isNumO a = false ∨ isNumO b = false) :
    cScores a b = (Json.num 0, Json.num 0) := by
  unfold cScores
  split
  · rcases h with h | h <;> simp_all [isNumO]
  · rfl

/-- Claim C8 (amended): for `'c'` projects the two required scores are
checked to be numbers and a missing or non-numeric value makes both come
out zero; for every other project type only a missing (or otherwise
falsy) `score` is replaced by zero — a truthy non-numeric value passes
through unvalidated (see the counterexample). -/
theorem score_numeric_coercion :
    (∀ svc content, svc 0 = Except.ok content →
       (isNumO (getField (safeJsonParse content.toList) "codeSmellScore") = false ∨
        isNumO (getField (safeJsonParse content.toList) "codeQualityScore") = false) →
       qualityScores (analyzeCode svc (some "c")) = [Json.num 0, Json.num 0]) ∧
    (∀ svc content pt, svc 0 = Except.ok content → pt ≠ some "c" →
       getField (safeJsonParse content.toList) "score" = none →
       qualityScores (analyzeCode svc pt) = [Json.num 0]) := by
  constructor
  · intro svc content h hnum
    simp only [String.toList] at hnum
    simp [analyzeCode, h, qualityScores, cScores_default _ _ hnum]
  · intro svc content pt h hne hs
    simp only [analyzeCode, h, if_neg hne, qualityScores, hs, jsOrElse]

/-- Witness for C8: a `'c'` response that carries no scores at all comes
out with both scores zero. -/
theorem score_numeric_coercion_witness :
    qualityScores (analyzeCode (fun _ => Except.ok "\x7b\"report\":\"r\"\x7d") (some "c")) =
      [Json.num 0, Json.num 0] :=
  score_numeric_coercion.1 (fun _ => Except.ok "\x7b\"report\":\"r\"\x7d")
    "\x7b\"report\":\"r\"\x7d" rfl (Or.inl rfl)

/-- Counterexample for C8: for a non-`'c'` project a response whose
`score` is the string `"high"` is returned as-is — a non-numeric value
that is neither rejected nor coerced to zero. -/
theorem score_not_validated_cex :
    analyzeCode (fun _ => Except.ok "\x7b\"score\":\"high\",\"report\":\"ok\"\x7d")
        (some "express") =
      AnalysisOut.web (Json.str "high") (Json.str "ok") ∧
    isNumberJ (Json.str "high") = false :=
  ⟨rfl, rfl⟩

lemma dropWhile_append_all {α : Type} (p : α → Bool) (l1 l2 : List α)
    (h : ∀ a ∈ l1, p a = true) : (l1 ++ l2).dropWhile p = l2.dropWhile p := by
  induction l1 with
  | nil => simp
  | cons a t ih =>
    simp only [List.cons_append, List.dropWhile_cons, h a (List.mem_cons_self a t), if_true]
    exact ih fun x hx => h x (List.mem_cons_of_mem a hx)

lemma braceSpan_extract (pre mid post : List Char)
    (h1 : '\x7b' ∉ pre) (h2 : '\x7d' ∉ post) :
    braceSpan (pre ++ ('\x7b' :: mid ++ ['\x7d']) ++ post) =
      some ('\x7b' :: mid ++ ['\x7d']) := by
  have ha : afterFirstBrace (pre ++ ('\x7b' :: mid ++ ['\x7d']) ++ post) =
      '\x7b' :: (mid ++ ['\x7d'] ++ post) := by
    unfold afterFirstBrace
    rw [List.append_assoc, dropWhile_append_all _ pre _ ?_]
    · simp
    · intro a haa
      simp only [decide_eq_true_eq]
      exact fun hc => h1 (hc ▸ haa)
  have hu : upToLastClose ('\x7b' :: (mid ++ ['\x7d'] ++ post)) =
      '\x7b' :: mid ++ ['\x7d'] := by
    unfold upToLastClose
    have hrev : ('\x7b' :: (mid ++ ['\x7d'] ++ post)).reverse =
        post.reverse ++ ('\x7d' :: (mid.reverse ++ ['\x7b'])) := by
      simp
    rw [hrev, dropWhile_append_all _ post.reverse _ ?_]
    · simp
    · intro a haa
      simp only [decide_eq_true_eq]
      exact fun hc => h2 (hc ▸ (List.mem_reverse.mp haa))
  unfold braceSpan
  rw [ha, hu]
  simp

/-- Claim C7 (amended): `safeJsonParse` takes the direct parse when it
succeeds; otherwise it decodes the span from the first opening brace to
the last closing brace of the raw text (greedy, not balance-checked) and
returns the empty object when that too fails or no such span exists — it
always returns a value.  Embedded data is guaranteed to be extracted only
when the text before it has no opening brace and the text after it no
closing brace; a stray brace in the extraneous text defeats extraction
(see the counterexample). -/
theorem safeJsonParse_staged :
    (∀ l v, jsonParse l = some v → safeJsonParse l = v) ∧
    (∀ l m, jsonParse l = none → braceSpan l = some m → jsonParse m = none →
       safeJsonParse l = Json.obj []) ∧
    (∀ l, jsonParse l = none → braceSpan l = none → safeJsonParse l = Json.obj []) ∧
    (∀ pre mid post v, '\x7b' ∉ pre → '\x7d' ∉ post →
       jsonParse ('\x7b' :: mid ++ ['\x7d']) = some v →
       jsonParse (pre ++ ('\x7b' :: mid ++ ['\x7d']) ++ post) = none →
       safeJsonParse (pre ++ ('\x7b' :: mid ++ ['\x7d']) ++ post) = v) := by
  refine ⟨?_, ?_, ?_, ?_⟩
  · intro l v h
    simp [safeJsonParse, h]
  · intro l m h1 h2 h3
    simp [safeJsonParse, h1, h2, h3]
  · intro l h1 h2
    simp [safeJsonParse, h1, h2]
  · intro pre mid post v h1 h2 h5 h6
    have h6a : jsonParse (pre ++ '\x7b' :: (mid ++ '\x7d' :: post)) = none := by
      simpa using h6
    have hba : braceSpan (pre ++ '\x7b' :: (mid ++ '\x7d' :: post)) =
        some ('\x7b' :: mid ++ ['\x7d']) := by
      simpa using braceSpan_extract pre mid post h1 h2
    have h5a : jsonParse ('\x7b' :: (mid ++ ['\x7d'])) = some v := by simpa using h5
    simp [safeJsonParse, h6a, hba]
    rw [h5a]

/-- Witness for C7: a payload embedded in brace-free prose is extracted. -/
theorem safeJsonParse_staged_witness :
    safeJsonParse
        ("note ".toList ++ ('\x7b' :: "\"a\": 1".toList ++ ['\x7d']) ++ " end".toList) =
      Json.obj [("a", Json.num 1)] :=
  safeJsonParse_staged.2.2.2 "note ".toList "\"a\": 1".toList " end".toList
    (Json.obj [("a", Json.num 1)]) (by decide) (by decide) rfl rfl

/-- Counterexample for C7: the payload `'\x7b"a": 1\x7d x\x7d'` embeds the
valid object and extraneous text, yet the greedy first-to-last-brace span
is unparseable and the adapter yields the empty object instead of the
embedded data. -/
theorem extraction_defeated_cex :
    jsonParse ("\x7b\"a\": 1\x7d".toList) = some (Json.obj [("a", Json.num 1)]) ∧
    "\x7b\"a\": 1\x7d x\x7d".toList = "\x7b\"a\": 1\x7d".toList ++ " x\x7d".toList ∧
    safeJsonParse ("\x7b\"a\": 1\x7d x\x7d".toList) = Json.obj [] ∧
    Json.obj [] ≠ Json.obj [("a", Json.num 1)] :=
  ⟨rfl, rfl, rfl, by simp⟩

/-- Claim C9 (amended): the prompt body of a file never contains any
character of the stripped class (all C0 controls except newline, plus
DEL), and is never longer than the 10000-character cap plus the
truncation marker; the newline `\x0A`, itself a control character, is
deliberately kept (see the counterexample). -/
theorem sanitize_and_cap (l : List Char) :
    ((processFileContent l).all fun c => !strippedCtrl c) = true ∧
    (processFileContent l).length ≤ 10000 + truncMarker.length := by
  have hall : ∀ c ∈ sanitizeCode l, (!strippedCtrl c) = true := by
    intro c hc
    exact (List.mem_filter.mp hc).2
  constructor
  · unfold processFileContent
    by_cases h : 10000 < (sanitizeCode l).length
    · rw [if_pos h]
      simp only [List.all_append, Bool.and_eq_true]
      constructor
      · rw [List.all_eq_true]
        intro c hc
        exact hall c (List.take_subset _ _ hc)
      · decide
    · rw [if_neg h, List.all_eq_true]
      intro c hc
      exact hall c hc
  · unfold processFileContent
    by_cases h : 10000 < (sanitizeCode l).length
    · rw [if_pos h]
      simp only [List.length_append, List.length_take]
      omega
    · rw [if_neg h]
      omega

/-- Counterexample for C9: the newline is an ASCII control character yet
passes through `sanitizeCode` untouched — not every control character is
stripped. -/
theorem newline_survives_cex :
    sanitizeCode ['a', '\n', 'b'] = ['a', '\n', 'b'] ∧ isCtrlChar '\n' = true :=
  ⟨rfl, rfl⟩

/-- Claim C10: the three submission read endpoints carry no middleware —
with no `Authorization` header at all they answer 200 with any user's
data (or 404 when absent), and their answers do not depend on the request
at all — while grade intake, update and delete all reject such a request
with 401 and leave the store untouched. -/
theorem reads_open_mutations_authed :
    ∀ verify users db fUser fStatus skip lim i freshId url pt b (req : HttpReq),
      req.authorization = none →
      ((listSubmissions db fUser fStatus skip lim req).1 = 200 ∧
       (∀ req2, listSubmissions db fUser fStatus skip lim req =
            listSubmissions db fUser fStatus skip lim req2 ∧
          getSubmissionById db i req = getSubmissionById db i req2 ∧
          getReportRoute db i req = getReportRoute db i req2) ∧
       (∀ s, db.find? (fun t => decide (t.id = i)) = some s →
          getSubmissionById db i req = (200, some s)) ∧
       (∀ s r, db.find? (fun t => decide (t.id = i)) = some s → s.report = some r →
          r ≠ "" → getReportRoute db i req = (200, some r)) ∧
       postGradeRoute verify users db freshId url pt req = (401, none, db) ∧
       patchRoute verify users db i b req = (401, db) ∧
       deleteRoute verify users db i req = (401, db)) := by
  intro verify users db fUser fStatus skip lim i freshId url pt b req hauth
  have hga : getUserFromToken verify users req = Except.error 401 := by
    simp [getUserFromToken, hauth]
  refine ⟨rfl, fun req2 => ⟨rfl, rfl, rfl⟩, ?_, ?_, ?_, ?_, ?_⟩
  · intro s hs
    simp [getSubmissionById, hs]
  · intro s r hs hr hne
    simp [getReportRoute, hs, hr, hne]
  · simp [postGradeRoute, hga]
  · simp [patchRoute, hga]
  · simp [deleteRoute, hga]

/-- A stored submission of user 9 holding a report, for the C10 witness. -/
def wSub : Submission :=
  { mkIntakeSubmission 3 9 "https://github.com/o/r" none with report := some "# Report" }

/-- Witness for C10: with no `Authorization` header, user 9's record and
report are served, while the admin update is refused with 401. -/
theorem reads_open_mutations_authed_witness :
    getSubmissionById [wSub] 3 ⟨none⟩ = (200, some wSub) ∧
    getReportRoute [wSub] 3 ⟨none⟩ = (200, some "# Report") ∧
    patchRoute (fun _ => none) [] [wSub] 3 ⟨none, none, none⟩ ⟨none⟩ = (401, [wSub]) := by
  have h := reads_open_mutations_authed (fun _ => none) [] [wSub] none none 0 50 3 4
    "https://github.com/o/r" none ⟨none, none, none⟩ ⟨none⟩ rfl
  exact ⟨h.2.2.1 wSub rfl, h.2.2.2.1 wSub "# Report" rfl rfl (by decide),
    h.2.2.2.2.2.1⟩

end DecaTestMark
